import Mathlib

/-
Verification of the asciitl core (src/main.py).

The Python source has three pure functions:
  * parse_activities : text → list of Activity (regex-based line parser),
  * get_time_points  : activities → sorted list of distinct time labels,
  * build_ascii_table : activities × time points → ASCII table string.
This file embeds them shallowly in Lean, together with the pieces of the
Python string library they rely on (str.splitlines, str.strip, str.center,
str.ljust, list.index, max), and proves the specification claims about them.
-/

namespace Asciitl

/-- Whitespace predicate of CPython (`Py_UNICODE_ISSPACE`).  This single set
underlies both `str.strip` (with no argument) and the `\s` class of `re`
string patterns, so the source's stripping and its regex share it. -/
def isPySpace (c : Char) : Bool :=
  let n := c.toNat
  (0x09 ≤ n && n ≤ 0x0d) || n == 0x20 || (0x1c ≤ n && n ≤ 0x1f) ||
    n == 0x85 || n == 0xa0 || n == 0x1680 || (0x2000 ≤ n && n ≤ 0x200a) ||
    n == 0x2028 || n == 0x2029 || n == 0x202f || n == 0x205f || n == 0x3000

/-- Line-boundary characters of Python's `str.splitlines` (the pair
`"\r\n"` is additionally treated as a single boundary). -/
def isLineBreak (c : Char) : Bool :=
  let n := c.toNat
  n == 0x0a || n == 0x0b || n == 0x0c || n == 0x0d ||
    n == 0x1c || n == 0x1d || n == 0x1e || n == 0x85 ||
    n == 0x2028 || n == 0x2029

/-- Worker of `splitlines`: `acc` holds the characters of the current line,
in reverse; `afterCR` records that the previous character was a line break
`'\r'`, so that a following `'\n'` is part of the same `"\r\n"` boundary.
A terminal line break produces no trailing empty line, exactly as in
Python. -/
def splitlinesGo : Bool → List Char → List Char → List String
  | _, [], acc => if acc.isEmpty then [] else [String.mk acc.reverse]
  | afterCR, c :: rest, acc =>
    if afterCR && c == '\n' then splitlinesGo false rest acc
    else if isLineBreak c then String.mk acc.reverse :: splitlinesGo (c == '\r') rest []
    else splitlinesGo false rest (c :: acc)

/-- Python's `str.splitlines`. -/
def splitlines (s : String) : List String :=
  splitlinesGo false s.data []

/-- Python's `str.strip()` with no argument: remove leading and trailing
whitespace. -/
def pyStrip (s : String) : String :=
  String.mk (((s.data.dropWhile isPySpace).reverse.dropWhile isPySpace).reverse)

/-- Structured activity record, mirroring the `Activity` dataclass of the
source.  The Python field `end` is called `stop` here (`end` is a Lean
keyword); `start` and `name` keep their names. -/
structure Activity where
  start : String
  stop : String
  name : String
deriving DecidableEq, Repr

/-- Recognise a `\d{2}:\d{2}` token at the head of the character stream and
return it with the remaining characters, as the regex groups 1 and 2 do.
Python's `\d` also accepts non-ASCII decimal digits; the embedding uses
ASCII digits, which is exact on the `HH:MM` inputs the program is about. -/
def timeTok? : List Char → Option (String × List Char)
  | a :: b :: c :: d :: e :: rest =>
    if a.isDigit && b.isDigit && c == ':' && d.isDigit && e.isDigit then
      some (String.mk [a, b, c, d, e], rest)
    else none
  | _ => none

/-- Stage of the regex after both time captures: the `\s+` separator (at
least one whitespace character) followed by the greedy `(.*)` capture,
which takes the rest of the line up to a `'\n'` (which `.` does not
match). -/
def matchTail (startTok stopTok : String) (r3 : List Char) : Option Activity :=
  match r3 with
  | [] => none
  | c :: _ =>
    if isPySpace c then
      some ⟨startTok, stopTok,
        String.mk ((r3.dropWhile isPySpace).takeWhile (fun ch => ch ≠ '\n'))⟩
    else none

/-- Stage of the regex after the literal dash: `\s*` then the second
`(\d{2}:\d{2})` capture, then the tail. -/
def matchAfterDash (startTok : String) (r2 : List Char) : Option Activity :=
  match timeTok? (r2.dropWhile isPySpace) with
  | none => none
  | some (stopTok, r3) => matchTail startTok stopTok r3

/-- Stage of the regex after the first capture: `\s*` then the literal
`-`. -/
def matchAfterStart (startTok : String) (r1 : List Char) : Option Activity :=
  match r1.dropWhile isPySpace with
  | '-' :: r2 => matchAfterDash startTok r2
  | _ => none

/-- Match of the source's regex `(\d{2}:\d{2})\s*-\s*(\d{2}:\d{2})\s+(.*)`
against the head of a line (`re.match` anchors at the start only).  The
pattern is deterministic: each `\s*`/`\s+` run is greedy and followed by a
character that is not whitespace, so no backtracking can succeed where the
maximal runs fail. -/
def matchLine (cs : List Char) : Option Activity :=
  match timeTok? cs with
  | none => none
  | some (startTok, r1) => matchAfterStart startTok r1

/-- Embedding of `parse_activities` (src/main.py lines 16-41): split the
input into lines, strip each line, and keep the regex captures of the
matching lines in order. -/
def parse_activities (text : String) : List Activity :=
  (splitlines text).filterMap (fun line => matchLine (pyStrip line).data)

/-- Labels contributed to the time axis: the `start` and `stop` of every
activity, as the loop of `get_time_points` (src/main.py lines 56-59) adds
them. -/
def timeLabels : List Activity → List String
  | [] => []
  | a :: rest => a.start :: a.stop :: timeLabels rest

/-- Embedding of `get_time_points` (src/main.py lines 44-60): Python's
`sorted(set(...))` is the unique duplicate-free ascending enumeration of
the collected labels, here obtained by sorting the deduplicated label
list.  String order is lexicographic by code point in both languages. -/
def get_time_points (activities : List Activity) : List String :=
  ((timeLabels activities).dedup).mergeSort (fun a b => a ≤ b)

/-- Run of `n` dashes, Python's `"-" * n`. -/
def dashes (n : Nat) : String :=
  String.mk (List.replicate n '-')

/-- Run of `n` spaces, Python's `" " * n`. -/
def blanks (n : Nat) : String :=
  String.mk (List.replicate n ' ')

/-- Python's `str.ljust(width)` with space fill. -/
def pyLjust (s : String) (width : Nat) : String :=
  if width ≤ s.length then s else s ++ blanks (width - s.length)

/-- Python's `str.center(width)` with space fill, including CPython's rule
for where the odd padding space goes. -/
def pyCenter (s : String) (width : Nat) : String :=
  if width ≤ s.length then s
  else
    let marg := width - s.length
    let left := marg / 2 + (marg &&& width &&& 1)
    blanks left ++ s ++ blanks (marg - left)

/-- Python's `list.index` wrapped in its `try`: the index of the first
element equal to `x`, or `none` where Python would raise `ValueError`. -/
def pyIndex? (x : String) : List String → Option Nat
  | [] => none
  | y :: ys => if y == x then some 0 else (pyIndex? x ys).map (· + 1)

/-- Python's `max` over a list with a `default` for the empty case. -/
def pyMaxD (l : List Nat) (dflt : Nat) : Nat :=
  match l with
  | [] => dflt
  | x :: xs => xs.foldl max x

/-- Column width of the activity-name column,
`max(8, max((len(a.name) for a in activities), default=8))`
(src/main.py line 65). -/
def activity_col_width (activities : List Activity) : Nat :=
  max 8 (pyMaxD (activities.map (fun a => a.name.length)) 8)

/-- Column width of the time columns, `max(7, max(len(tp) for tp in
time_points))` (src/main.py line 66).  The inner `max` has no default, so
Python raises on an empty list; `build_ascii_table` models that raise, and
this value is only used on non-empty input, where the fold below is the
plain maximum. -/
def time_col_width (time_points : List String) : Nat :=
  max 7 (pyMaxD (time_points.map (fun tp => tp.length)) 0)

/-- Cells of one activity's timeline row (src/main.py lines 81-94): blank
cells, then the bar start, interior and end cells drawn over them; `none`
when `list.index` fails for either label and the `except` clause skips the
activity. -/
def rowCells (time_points : List String) (w : Nat) (a : Activity) :
    Option (List String) :=
  match pyIndex? a.start time_points, pyIndex? a.stop time_points with
  | some start_idx, some end_idx =>
    let cells0 := time_points.map (fun _ => blanks w)
    let cells1 := cells0.set start_idx
      ("|" ++ dashes (w - 2) ++ (if start_idx = end_idx then "|" else "-"))
    let cells2 := (List.range' (start_idx + 1) (end_idx - (start_idx + 1))).foldl
      (fun cs i => cs.set i (dashes w)) cells1
    let cells3 :=
      if start_idx < end_idx then cells2.set end_idx (dashes (w - 2) ++ "|")
      else cells2
    some cells3
  | _, _ => none

/-- One data row of the table (src/main.py lines 96-99): the left-justified
name between two double-space gutters, then each cell preceded by one
space, then a newline; `none` when the activity is skipped. -/
def rowLine (acw w : Nat) (time_points : List String) (a : Activity) :
    Option String :=
  (rowCells time_points w a).map (fun cells =>
    cells.foldl (fun s c => s ++ (" " ++ c))
      ("  " ++ pyLjust a.name acw ++ "  ") ++ "\n")

/-- Separator line (src/main.py lines 73-76): one space, dashes spanning
the name column plus two, one space, then one space and a dash run per
time point, then a newline. -/
def sepLine (acw w : Nat) (time_points : List String) : String :=
  time_points.foldl (fun s _ => s ++ (" " ++ dashes w))
    (" " ++ dashes (acw + 2) ++ " ") ++ "\n"

/-- Header line (src/main.py lines 68-71): the word `activity` centered in
the name column between double-space gutters, then each label centered in
its column and preceded by one space, then a newline. -/
def headerLine (acw w : Nat) (time_points : List String) : String :=
  time_points.foldl (fun s tp => s ++ (" " ++ pyCenter tp w))
    ("  " ++ pyCenter "activity" acw ++ "  ") ++ "\n"

/-- Embedding of `build_ascii_table` (src/main.py lines 63-102).  The
result is `Except`: on an empty time-point list Python's inner `max` raises
`ValueError`, which is the only exception the function can raise (the
`list.index` calls are wrapped in `try`/`except`). -/
def build_ascii_table (activities : List Activity) (time_points : List String) :
    Except String String :=
  let acw := activity_col_width activities
  match time_points with
  | [] => Except.error "ValueError: max() arg is an empty sequence"
  | _ :: _ =>
    let w := time_col_width time_points
    let sep := sepLine acw w time_points
    let header := headerLine acw w time_points
    Except.ok
      ((activities.foldl
          (fun t a =>
            match rowLine acw w time_points a with
            | some r => t ++ r
            | none => t)
          (sep ++ header ++ sep)) ++ sep)

/-- Concatenation of a list of strings, used to state what the append
loops of the renderer build. -/
def strConcat : List String → String
  | [] => ""
  | s :: rest => s ++ strConcat rest

/-- Value of cell `j` of a bar row whose start label sits at index `si` and
whose end label sits at index `ei`, summarising the cell-drawing statements
of src/main.py lines 88-94. -/
def barCell (w si ei j : Nat) : String :=
  if j = si then "|" ++ dashes (w - 2) ++ (if si = ei then "|" else "-")
  else if si < j ∧ j < ei then dashes w
  else if j = ei ∧ si < ei then dashes (w - 2) ++ "|"
  else blanks w

/-- Shape of a `\d{2}:\d{2}` capture: five characters, two digits, a colon,
two digits. -/
def isTimeShape (s : String) : Bool :=
  match s.data with
  | [a, b, c, d, e] => a.isDigit && b.isDigit && c == ':' && d.isDigit && e.isDigit
  | _ => false

/-- Declarative reading of the claim's pattern, following the spec's words:
the line is a two-digit time, optional whitespace, a literal dash, optional
whitespace, a two-digit time, one-or-more whitespace, then the remainder of
the line verbatim as the name.  The side condition that the name does not
begin with whitespace expresses that the `\s+` run is greedy (maximal). -/
def lineSpecMatch (cs : List Char) (a : Activity) : Prop :=
  isTimeShape a.start = true ∧ isTimeShape a.stop = true ∧
  (a.name.data = [] ∨ ∃ c cs2, a.name.data = c :: cs2 ∧ isPySpace c = false) ∧
  ∃ ws1 ws2 ws3 : List Char,
    (∀ c ∈ ws1, isPySpace c = true) ∧ (∀ c ∈ ws2, isPySpace c = true) ∧
    ws3 ≠ [] ∧ (∀ c ∈ ws3, isPySpace c = true) ∧
    cs = a.start.data ++ ws1 ++ '-' :: (ws2 ++ a.stop.data ++ ws3 ++ a.name.data)

/-- A string free of line-break characters (as every line produced by
`splitlines` is). -/
def breakFree (s : String) : Bool :=
  s.data.all (fun c => !(isLineBreak c))


/-! Helper lemmas about `dropWhile` runs, used to mirror the determinism of
the regex's greedy whitespace runs. -/

lemma dropWhile_append_all {p : Char → Bool} (xs ys : List Char)
    (h : ∀ c ∈ xs, p c = true) :
    (xs ++ ys).dropWhile p = ys.dropWhile p := by
  induction xs with
  | nil => rfl
  | cons x xs ih =>
    have hx : p x = true := h x (by simp)
    rw [List.cons_append, List.dropWhile_cons, if_pos hx]
    exact ih (fun c hc => h c (by simp [hc]))

lemma dropWhile_cons_neg {p : Char → Bool} {c : Char} (ys : List Char)
    (h : p c = false) :
    (c :: ys).dropWhile p = c :: ys := by
  rw [List.dropWhile_cons, h]
  simp

lemma dropWhile_head_false {p : Char → Bool} {c : Char} {r : List Char}
    (l : List Char) (h : l.dropWhile p = c :: r) :
    p c = false := by
  induction l with
  | nil => simp [List.dropWhile] at h
  | cons x xs ih =>
    rw [List.dropWhile_cons] at h
    by_cases hx : p x = true
    · rw [if_pos hx] at h
      exact ih h
    · rw [if_neg hx] at h
      injection h with h1 h2
      subst h1
      exact Bool.eq_false_iff.mpr hx

lemma dropWhile_nil_all {p : Char → Bool} (l : List Char)
    (h : l.dropWhile p = []) :
    ∀ c ∈ l, p c = true := by
  intro c hc
  by_contra hq
  have := List.dropWhile_eq_nil_iff.mp h c hc
  exact hq this

/-! Lemmas about `timeTok?`, the embedding of the `(\d{2}:\d{2})` capture. -/

lemma timeTok?_eq_some {cs : List Char} {t : String} {r : List Char}
    (h : timeTok? cs = some (t, r)) :
    cs = t.data ++ r ∧ isTimeShape t = true := by
  rcases cs with _ | ⟨a, _ | ⟨b, _ | ⟨c, _ | ⟨d, _ | ⟨e, rest⟩⟩⟩⟩⟩ <;>
    simp only [timeTok?] at h
  · cases h
  · cases h
  · cases h
  · cases h
  · cases h
  · split at h
    · rename_i hg
      injection h with h1
      injection h1 with h2 h3
      subst h2
      subst h3
      exact ⟨rfl, hg⟩
    · cases h

lemma timeTok?_shape {t : String} (r : List Char) (h : isTimeShape t = true) :
    timeTok? (t.data ++ r) = some (t, r) := by
  unfold isTimeShape at h
  rcases ht : t.data with _ | ⟨a, _ | ⟨b, _ | ⟨c, _ | ⟨d, _ | ⟨e, _ | ⟨f, rest⟩⟩⟩⟩⟩⟩ <;>
    rw [ht] at h <;> simp only [] at h
  case nil => cases h
  case cons.nil => cases h
  case cons.cons.nil => cases h
  case cons.cons.cons.nil => cases h
  case cons.cons.cons.cons.nil => cases h
  case cons.cons.cons.cons.cons.cons => cases h
  case cons.cons.cons.cons.cons.nil =>
    have hmk : String.mk t.data = t := rfl
    rw [ht] at hmk
    simp only [List.cons_append, List.nil_append, timeTok?, h, if_pos]
    rw [hmk]

lemma data_mk (l : List Char) : (String.mk l).data = l := rfl

lemma isDigit_not_space {c : Char} (h : c.isDigit = true) : isPySpace c = false := by
  simp [Char.isDigit, Char.le_def, Char.toNat] at h
  obtain ⟨h1, h2⟩ := h
  have h1n : 48 ≤ c.val.toNat := by exact_mod_cast h1
  have h2n : c.val.toNat ≤ 57 := by exact_mod_cast h2
  simp [isPySpace, Char.toNat]
  omega

lemma mem_of_dropWhile {p : Char → Bool} {c : Char} {l : List Char}
    (h : c ∈ l.dropWhile p) : c ∈ l :=
  (List.dropWhile_sublist p).subset h

lemma dropWhile_timeShape {t : String} (r : List Char) (h : isTimeShape t = true) :
    (t.data ++ r).dropWhile isPySpace = t.data ++ r := by
  unfold isTimeShape at h
  rcases ht : t.data with _ | ⟨a, rest⟩
  · rw [ht] at h
    cases h
  · rw [ht] at h
    have ha : a.isDigit = true := by
      rcases rest with _ | ⟨b, _ | ⟨c, _ | ⟨d, _ | ⟨e, _ | ⟨f, r2⟩⟩⟩⟩⟩ <;>
        simp only [] at h <;> try cases h
      exact (by simp only [Bool.and_eq_true] at h; exact h.1.1.1.1)
    rw [List.cons_append]
    exact dropWhile_cons_neg _ (isDigit_not_space ha)

/-! Inversion lemmas for the stages of `matchLine`. -/

lemma matchLine_inv {cs : List Char} {a : Activity} (h : matchLine cs = some a) :
    ∃ st r1, timeTok? cs = some (st, r1) ∧ matchAfterStart st r1 = some a := by
  unfold matchLine at h
  cases e : timeTok? cs with
  | none => rw [e] at h; cases h
  | some pr =>
    obtain ⟨st, r1⟩ := pr
    rw [e] at h
    exact ⟨st, r1, rfl, h⟩

lemma matchAfterStart_inv {st : String} {r1 : List Char} {a : Activity}
    (h : matchAfterStart st r1 = some a) :
    ∃ r2, r1.dropWhile isPySpace = '-' :: r2 ∧ matchAfterDash st r2 = some a := by
  unfold matchAfterStart at h
  split at h
  · rename_i r2 e
    exact ⟨r2, e, h⟩
  · cases h

lemma matchAfterDash_inv {st : String} {r2 : List Char} {a : Activity}
    (h : matchAfterDash st r2 = some a) :
    ∃ stT r3, timeTok? (r2.dropWhile isPySpace) = some (stT, r3) ∧
      matchTail st stT r3 = some a := by
  unfold matchAfterDash at h
  split at h
  · cases h
  · rename_i stT r3 e
    exact ⟨stT, r3, e, h⟩

lemma matchTail_inv {st stT : String} {r3 : List Char} {a : Activity}
    (h : matchTail st stT r3 = some a) :
    ∃ c r3t, r3 = c :: r3t ∧ isPySpace c = true ∧
      a = ⟨st, stT,
        String.mk ((r3.dropWhile isPySpace).takeWhile (fun ch => ch ≠ '\n'))⟩ := by
  cases r3 with
  | nil => simp [matchTail] at h
  | cons c r3t =>
    simp only [matchTail] at h
    split at h
    · rename_i hsp
      injection h with h1
      exact ⟨c, r3t, rfl, hsp, h1.symm⟩
    · cases h

/-! Forward computation lemmas for the stages of `matchLine`. -/

lemma matchLine_tok {cs : List Char} {st : String} {r1 : List Char}
    (e : timeTok? cs = some (st, r1)) :
    matchLine cs = matchAfterStart st r1 := by
  unfold matchLine
  rw [e]

lemma matchAfterStart_dash {st : String} {r1 r2 : List Char}
    (e : r1.dropWhile isPySpace = '-' :: r2) :
    matchAfterStart st r1 = matchAfterDash st r2 := by
  unfold matchAfterStart
  rw [e]
  rfl

lemma matchAfterDash_tok {st stT : String} {r2 r3 : List Char}
    (e : timeTok? (r2.dropWhile isPySpace) = some (stT, r3)) :
    matchAfterDash st r2 = matchTail st stT r3 := by
  unfold matchAfterDash
  rw [e]

/-- Soundness of the matcher: a successful match decomposes the line as the
spec's pattern says. -/
lemma matchLine_sound {cs : List Char} {a : Activity}
    (hn : '\n' ∉ cs) (h : matchLine cs = some a) :
    lineSpecMatch cs a := by
  obtain ⟨st, r1, e1, h1⟩ := matchLine_inv h
  obtain ⟨r2, e2, h2⟩ := matchAfterStart_inv h1
  obtain ⟨stT, r3, e3, h3⟩ := matchAfterDash_inv h2
  obtain ⟨c, r3t, er3, hspc, ha⟩ := matchTail_inv h3
  obtain ⟨hcs1, hshape1⟩ := timeTok?_eq_some e1
  obtain ⟨hr2d, hshape2⟩ := timeTok?_eq_some e3
  subst ha
  set tw1 := r1.takeWhile isPySpace with htw1
  set tw2 := r2.takeWhile isPySpace with htw2
  set tw3 := r3.takeWhile isPySpace with htw3
  set nm0 := r3.dropWhile isPySpace with hnm0
  have hr1 : tw1 ++ ('-' :: r2) = r1 := by
    rw [htw1, ← e2]
    exact List.takeWhile_append_dropWhile _ _
  have hr2 : tw2 ++ (stT.data ++ r3) = r2 := by
    rw [htw2, ← hr2d]
    exact List.takeWhile_append_dropWhile _ _
  have hr3 : tw3 ++ nm0 = r3 := List.takeWhile_append_dropWhile _ _
  have hsubcs : ∀ x ∈ nm0, x ∈ cs := by
    intro x hx
    have hx3 : x ∈ r3 := mem_of_dropWhile hx
    have hx2 : x ∈ r2 := by
      rw [← hr2]
      exact List.mem_append_right _ (List.mem_append_right _ hx3)
    have hx1 : x ∈ r1 := by
      rw [← hr1]
      exact List.mem_append_right _ (List.mem_cons_of_mem _ hx2)
    rw [hcs1]
    exact List.mem_append_right _ hx1
  have hname : nm0.takeWhile (fun ch => ch ≠ '\n') = nm0 := by
    rw [List.takeWhile_eq_self_iff]
    intro x hx
    simp only [ne_eq, decide_eq_true_eq]
    intro hxn
    exact hn (hxn ▸ hsubcs x hx)
  have hheaddisj : nm0 = [] ∨ ∃ d ds, nm0 = d :: ds ∧ isPySpace d = false := by
    cases hd : nm0 with
    | nil => exact Or.inl rfl
    | cons d ds => exact Or.inr ⟨d, ds, rfl, dropWhile_head_false r3 (hnm0 ▸ hd)⟩
  refine ⟨hshape1, hshape2, ?_, tw1, tw2, tw3,
    fun x hx => List.mem_takeWhile_imp hx, fun x hx => List.mem_takeWhile_imp hx,
    ?_, fun x hx => List.mem_takeWhile_imp hx, ?_⟩
  · rw [data_mk, hname]
    exact hheaddisj
  · rw [htw3, er3]
    simp [List.takeWhile_cons, hspc]
  · rw [hcs1, ← hr1, ← hr2, ← hr3]
    simp only [data_mk, hname]
    simp [List.append_assoc]

/-- Completeness of the matcher: a line decomposing as the spec's pattern
says is matched, with exactly those captures. -/
lemma matchLine_complete {cs : List Char} {a : Activity}
    (hn : '\n' ∉ cs) (hm : lineSpecMatch cs a) :
    matchLine cs = some a := by
  obtain ⟨hs1, hs2, hnm, ws1, ws2, ws3, hws1, hws2, hws3ne, hws3, hcs⟩ := hm
  subst hcs
  have e1 : timeTok?
      (a.start.data ++ ws1 ++ '-' :: (ws2 ++ a.stop.data ++ ws3 ++ a.name.data)) =
      some (a.start, ws1 ++ '-' :: (ws2 ++ a.stop.data ++ ws3 ++ a.name.data)) := by
    rw [List.append_assoc]
    exact timeTok?_shape _ hs1
  rw [matchLine_tok e1]
  have e2 : (ws1 ++ '-' :: (ws2 ++ a.stop.data ++ ws3 ++ a.name.data)).dropWhile
      isPySpace = '-' :: (ws2 ++ a.stop.data ++ ws3 ++ a.name.data) := by
    rw [dropWhile_append_all _ _ hws1]
    exact dropWhile_cons_neg _ (by decide)
  rw [matchAfterStart_dash e2]
  have e3 : timeTok?
      ((ws2 ++ a.stop.data ++ ws3 ++ a.name.data).dropWhile isPySpace) =
      some (a.stop, ws3 ++ a.name.data) := by
    have hassoc : ws2 ++ a.stop.data ++ ws3 ++ a.name.data =
        ws2 ++ (a.stop.data ++ (ws3 ++ a.name.data)) := by
      simp [List.append_assoc]
    rw [hassoc, dropWhile_append_all _ _ hws2, dropWhile_timeShape _ hs2]
    exact timeTok?_shape _ hs2
  rw [matchAfterDash_tok e3]
  obtain ⟨w, ws3t, hw⟩ : ∃ w ws3t, ws3 = w :: ws3t := by
    cases ws3 with
    | nil => exact absurd rfl hws3ne
    | cons w ws3t => exact ⟨w, ws3t, rfl⟩
  subst hw
  have hwsp : isPySpace w = true := hws3 w (by simp)
  have hdropname : a.name.data.dropWhile isPySpace = a.name.data := by
    cases hnm with
    | inl hnil => rw [hnil]; rfl
    | inr hcons =>
      obtain ⟨c, cs2, hdata, hcsp⟩ := hcons
      rw [hdata]
      exact dropWhile_cons_neg _ hcsp
  have hdrop : (w :: (ws3t ++ a.name.data)).dropWhile isPySpace = a.name.data := by
    rw [List.dropWhile_cons, if_pos hwsp,
      dropWhile_append_all _ _ (fun x hx => hws3 x (List.mem_cons_of_mem _ hx))]
    exact hdropname
  have htake : a.name.data.takeWhile (fun ch => decide (ch ≠ '\n')) = a.name.data := by
    rw [List.takeWhile_eq_self_iff]
    intro x hx
    simp only [ne_eq, decide_eq_true_eq]
    intro hxn
    subst hxn
    exact hn (by simp [hx])
  simp only [matchTail, List.cons_append]
  rw [if_pos hwsp, hdrop]
  simp only [ne_eq, htake]

/-! Lines produced by `splitlines` contain no line-break characters, and
`pyStrip` leaves no trailing whitespace. -/

lemma splitlinesGo_breakfree :
    ∀ (cs : List Char) (b : Bool) (acc : List Char),
      (∀ c ∈ acc, isLineBreak c = false) →
      ∀ l ∈ splitlinesGo b cs acc, ∀ c ∈ l.data, isLineBreak c = false := by
  intro cs
  induction cs with
  | nil =>
    intro b acc hacc l hl c hc
    simp only [splitlinesGo] at hl
    split at hl
    · cases hl
    · rw [List.mem_singleton] at hl
      subst hl
      rw [data_mk, List.mem_reverse] at hc
      exact hacc c hc
  | cons x xs ih =>
    intro b acc hacc l hl c hc
    simp only [splitlinesGo] at hl
    by_cases h1 : (b && x == '\n') = true
    · rw [if_pos h1] at hl
      exact ih false acc hacc l hl c hc
    · rw [if_neg h1] at hl
      by_cases h2 : isLineBreak x = true
      · rw [if_pos h2] at hl
        rcases List.mem_cons.mp hl with hl1 | hl2
        · subst hl1
          rw [data_mk, List.mem_reverse] at hc
          exact hacc c hc
        · exact ih (x == '\r') [] (by simp) l hl2 c hc
      · rw [if_neg h2] at hl
        refine ih false (x :: acc) ?_ l hl c hc
        intro d hd
        rcases List.mem_cons.mp hd with hd1 | hd2
        · subst hd1
          exact Bool.eq_false_iff.mpr h2
        · exact hacc d hd2

lemma mem_splitlines_breakfree {text l : String} (hl : l ∈ splitlines text) :
    ∀ c ∈ l.data, isLineBreak c = false :=
  splitlinesGo_breakfree text.data false [] (by simp) l hl

lemma mem_pyStrip {s : String} {c : Char} (h : c ∈ (pyStrip s).data) :
    c ∈ s.data := by
  rw [pyStrip, data_mk, List.mem_reverse] at h
  have h2 : c ∈ (s.data.dropWhile isPySpace).reverse := mem_of_dropWhile h
  rw [List.mem_reverse] at h2
  exact mem_of_dropWhile h2

lemma pyStrip_rev_head_not_space {s : String} {c : Char}
    (h : (pyStrip s).data.reverse.head? = some c) :
    isPySpace c = false := by
  rw [pyStrip, data_mk, List.reverse_reverse] at h
  cases hY : (s.data.dropWhile isPySpace).reverse.dropWhile isPySpace with
  | nil => rw [hY] at h; cases h
  | cons d ds =>
    rw [hY] at h
    injection h with h1
    subst h1
    exact dropWhile_head_false _ hY

/-- No activity produced by `parse_activities` has an empty name: the line
is stripped before matching, so it ends in a non-whitespace character, while
an empty `(.*)` capture would force the `\s+` run to reach the end of the
line. -/
lemma parse_name_nonempty {text : String} {a : Activity}
    (h : a ∈ parse_activities text) : a.name ≠ "" := by
  unfold parse_activities at h
  obtain ⟨line, hline, hmatch⟩ := List.mem_filterMap.mp h
  have hbf := mem_splitlines_breakfree hline
  have hnn : '\n' ∉ (pyStrip line).data := by
    intro hmem
    have h1 : '\n' ∈ line.data := mem_pyStrip hmem
    have h2 := hbf _ h1
    simp [isLineBreak] at h2
  obtain ⟨hs1, hs2, hnm, ws1, ws2, ws3, hws1, hws2, hws3ne, hws3, hcs⟩ :=
    matchLine_sound hnn hmatch
  intro hnamenil
  have hdata : a.name.data = [] := by rw [hnamenil]
  rw [hdata, List.append_nil] at hcs
  obtain ⟨w, wt, hw⟩ : ∃ w wt, ws3 = w :: wt := by
    cases ws3 with
    | nil => exact absurd rfl hws3ne
    | cons w wt => exact ⟨w, wt, rfl⟩
  subst hw
  have hassoc : a.start.data ++ ws1 ++ '-' :: (ws2 ++ a.stop.data ++ (w :: wt)) =
      (a.start.data ++ ws1 ++ '-' :: (ws2 ++ a.stop.data)) ++ (w :: wt) := by
    simp [List.append_assoc]
  have hrev : (pyStrip line).data.reverse =
      (w :: wt).reverse ++
        (a.start.data ++ ws1 ++ '-' :: (ws2 ++ a.stop.data)).reverse := by
    rw [hcs, hassoc, List.reverse_append]
  cases hrh : (w :: wt).reverse with
  | nil => simp at hrh
  | cons x xt =>
    have hxmem : x ∈ w :: wt := by
      rw [← List.mem_reverse, hrh]
      simp
    have hhead : (pyStrip line).data.reverse.head? = some x := by
      rw [hrev, hrh]
      simp
    have h1 := pyStrip_rev_head_not_space hhead
    have h2 := hws3 x hxmem
    rw [h2] at h1
    cases h1

/-! Lemmas about `timeLabels` and the claims about the parser and the time
axis. -/

lemma mem_timeLabels {x : String} {acts : List Activity} :
    x ∈ timeLabels acts ↔ ∃ a ∈ acts, a.start = x ∨ a.stop = x := by
  induction acts with
  | nil => simp [timeLabels]
  | cons a rest ih =>
    simp only [timeLabels, List.mem_cons, ih]
    constructor
    · rintro (h1 | h2 | ⟨b, hb, hx⟩)
      · exact ⟨a, Or.inl rfl, Or.inl h1.symm⟩
      · exact ⟨a, Or.inl rfl, Or.inr h2.symm⟩
      · exact ⟨b, Or.inr hb, hx⟩
    · rintro ⟨b, hb | hb, hx⟩
      · subst hb
        rcases hx with hx | hx
        · exact Or.inl hx.symm
        · exact Or.inr (Or.inl hx.symm)
      · exact Or.inr (Or.inr ⟨b, hb, hx⟩)

/-- Claim C4: `parse` splits its input on line boundaries, trims each line,
and returns exactly one Activity, in input-line order, for each line that
matches the pattern two digits, colon, two digits, optional whitespace,
dash, optional whitespace, two digits, colon, two digits, one-or-more
whitespace, then the remainder of the line; the captures become the
activity's `start`, `stop` and (verbatim) `name`. -/
theorem c4_parse_characterization (text : String) :
    parse_activities text =
      (splitlines text).filterMap (fun line => matchLine (pyStrip line).data) ∧
    ∀ (cs : List Char) (a : Activity), '\n' ∉ cs →
      (matchLine cs = some a ↔ lineSpecMatch cs a) :=
  ⟨rfl, fun _ _ hn => ⟨matchLine_sound hn, matchLine_complete hn⟩⟩

/-- Witness for C4 at a concrete line. -/
theorem c4_parse_characterization_witness :
    matchLine ("09:00 - 09:15 Tea time").data =
      some ⟨"09:00", "09:15", "Tea time"⟩ ∧
    lineSpecMatch ("09:00 - 09:15 Tea time").data ⟨"09:00", "09:15", "Tea time"⟩ :=
  have h := (c4_parse_characterization "09:00 - 09:15 Tea time").2
    ("09:00 - 09:15 Tea time").data ⟨"09:00", "09:15", "Tea time"⟩ (by decide)
  ⟨by decide, h.mp (by decide)⟩

/-- Claim C7: `parse` is total (the embedding returns a value for every
input string, never an error), non-matching lines are silently skipped, and
an input with no matching lines — including the empty string — yields the
empty list. -/
theorem c7_parse_total_skips_silently :
    parse_activities "" = [] ∧
    ∀ text : String,
      (∀ l ∈ splitlines text, matchLine (pyStrip l).data = none) →
      parse_activities text = [] :=
  ⟨rfl, fun _ h => List.filterMap_eq_nil_iff.mpr h⟩

/-- Witness for C7 on a concrete input with only malformed lines. -/
theorem c7_parse_total_skips_silently_witness :
    parse_activities "no activities here\n\n09:00-09:15Break" = [] :=
  c7_parse_total_skips_silently.2 _ (by decide)

/-- Counterexample for C9: the claim asserts some input line is accepted
with an empty name; in fact no input whatsoever produces an activity whose
name is empty, because lines are stripped before matching while the pattern
needs trailing whitespace for an empty `(.*)` capture. -/
theorem c9_counterexample :
    ¬ ∃ (text : String) (a : Activity),
      a ∈ parse_activities text ∧ a.name = "" := by
  rintro ⟨text, a, hmem, hname⟩
  exact parse_name_nonempty hmem hname

/-- Claim C9 as amended: an accepted line never yields an empty name —
every activity returned by `parse` has a non-empty name. -/
theorem c9_amended_nonempty_name (text : String) (a : Activity)
    (h : a ∈ parse_activities text) : a.name ≠ "" :=
  parse_name_nonempty h

/-- Witness for the amended C9 at a concrete input. -/
theorem c9_amended_nonempty_name_witness :
    (Activity.mk "09:00" "09:15" "A") ∈ parse_activities "09:00 - 09:15 A" ∧
    (Activity.mk "09:00" "09:15" "A").name ≠ "" :=
  ⟨by decide, c9_amended_nonempty_name "09:00 - 09:15 A" _ (by decide)⟩

/-- Claim C5: `get_time_points` returns exactly the union of all start and
end labels of the given activities, with no duplicates, sorted strictly
ascending in lexicographic string order; the empty activity list yields the
empty sequence. -/
theorem c5_time_points_sorted_union (activities : List Activity) :
    (get_time_points activities).Nodup ∧
    List.Sorted (· < ·) (get_time_points activities) ∧
    (∀ x, x ∈ get_time_points activities ↔
      ∃ a ∈ activities, a.start = x ∨ a.stop = x) ∧
    get_time_points [] = ([] : List String) := by
  have hnd : (get_time_points activities).Nodup :=
    (List.mergeSort_perm (timeLabels activities).dedup _).nodup_iff.mpr
      (List.nodup_dedup _)
  refine ⟨hnd, ?_, ?_, ?_⟩
  · exact (List.sorted_mergeSort' (timeLabels activities).dedup).lt_of_le hnd
  · intro x
    rw [get_time_points, List.mem_mergeSort, List.mem_dedup]
    exact mem_timeLabels
  · simp [get_time_points, timeLabels]

/-! Lemmas about `pyIndex?` and the cell-drawing loop of the renderer. -/

lemma pyIndex?_lt_length {x : String} :
    ∀ {l : List String} {i : Nat}, pyIndex? x l = some i → i < l.length := by
  intro l
  induction l with
  | nil => intro i h; cases h
  | cons y ys ih =>
    intro i h
    simp only [pyIndex?] at h
    by_cases hy : (y == x) = true
    · rw [if_pos hy] at h
      injection h with h1
      subst h1
      simp
    · rw [if_neg hy] at h
      cases ho : pyIndex? x ys with
      | none => rw [ho] at h; cases h
      | some j =>
        rw [ho] at h
        injection h with h1
        subst h1
        simpa using ih ho

lemma pyIndex?_isSome_iff {x : String} :
    ∀ {l : List String}, (pyIndex? x l).isSome = true ↔ x ∈ l := by
  intro l
  induction l with
  | nil => simp [pyIndex?]
  | cons y ys ih =>
    simp only [pyIndex?]
    by_cases hy : (y == x) = true
    · rw [if_pos hy]
      have : y = x := by simpa using hy
      simp [this]
    · rw [if_neg hy]
      have hne : y ≠ x := by simpa using hy
      simp [Option.isSome_map, ih, List.mem_cons]
      intro hx
      exact absurd hx.symm hne

lemma foldl_append_strConcat {α : Type} (f : α → String) :
    ∀ (l : List α) (init : String),
      l.foldl (fun s x => s ++ f x) init = init ++ strConcat (l.map f) := by
  intro l
  induction l with
  | nil => intro init; simp [strConcat]
  | cons x xs ih =>
    intro init
    simp only [List.foldl_cons, List.map_cons, strConcat]
    rw [ih, String.append_assoc]

lemma foldl_rows_strConcat (acw w : Nat) (tps : List String) :
    ∀ (acts : List Activity) (init : String),
      (acts.foldl (fun t a =>
        match rowLine acw w tps a with
        | some r => t ++ r
        | none => t) init) =
      init ++ strConcat (acts.filterMap (rowLine acw w tps)) := by
  intro acts
  induction acts with
  | nil => intro init; simp [strConcat]
  | cons a rest ih =>
    intro init
    simp only [List.foldl_cons]
    cases hr : rowLine acw w tps a with
    | none =>
      rw [List.filterMap_cons_none hr]
      simp only [hr]
      exact ih init
    | some r =>
      rw [List.filterMap_cons_some hr]
      simp only [hr, strConcat]
      rw [ih, String.append_assoc]

/-- The renderer's output for a non-empty time axis: separator, header,
separator, the rows of the activities that match (in order), separator. -/
lemma build_ascii_table_eq (acts : List Activity) (tps : List String)
    (hne : tps ≠ []) :
    build_ascii_table acts tps = Except.ok
      (sepLine (activity_col_width acts) (time_col_width tps) tps ++
       headerLine (activity_col_width acts) (time_col_width tps) tps ++
       sepLine (activity_col_width acts) (time_col_width tps) tps ++
       strConcat (acts.filterMap
         (rowLine (activity_col_width acts) (time_col_width tps) tps)) ++
       sepLine (activity_col_width acts) (time_col_width tps) tps) := by
  cases tps with
  | nil => exact absurd rfl hne
  | cons t ts =>
    simp only [build_ascii_table]
    rw [foldl_rows_strConcat]

lemma foldl_set_getElem? (d : String) :
    ∀ (n s : Nat) (cs : List String) (j : Nat),
      ((List.range' s n).foldl (fun cs2 i => cs2.set i d) cs)[j]? =
        if s ≤ j ∧ j < s + n ∧ j < cs.length then some d else cs[j]? := by
  intro n
  induction n with
  | zero =>
    intro s cs j
    simp only [List.range', List.foldl_nil]
    split_ifs with h
    · exfalso; omega
    · rfl
  | succ n ih =>
    intro s cs j
    rw [List.range'_succ]
    simp only [List.foldl_cons]
    rw [ih (s + 1) (cs.set s d) j, List.length_set]
    by_cases hj : j = s
    · subst hj
      rw [if_neg (by omega)]
      by_cases hlen : j < cs.length
      · rw [if_pos ⟨Nat.le_refl j, by omega, hlen⟩]
        simp [List.getElem?_set_self, hlen]
      · rw [if_neg (by omega)]
        have hle : cs.length ≤ j := by omega
        rw [List.getElem?_eq_none (by simpa using hle), List.getElem?_eq_none hle]
    · rw [List.getElem?_set_ne (fun hc => hj hc.symm)]
      by_cases hc : s + 1 ≤ j ∧ j < s + 1 + n ∧ j < cs.length
      · rw [if_pos hc, if_pos ⟨by omega, by omega, hc.2.2⟩]
      · rw [if_neg hc, if_neg (fun hcon => hc ⟨by omega, by omega, hcon.2.2⟩)]

lemma foldl_set_length (d : String) :
    ∀ (is : List Nat) (cs : List String),
      (is.foldl (fun cs2 i => cs2.set i d) cs).length = cs.length := by
  intro is
  induction is with
  | nil => intro cs; rfl
  | cons i rest ih =>
    intro cs
    simp only [List.foldl_cons]
    rw [ih, List.length_set]

/-- Master characterisation of the cell-drawing loop: for a matched
activity the cells are exactly `barCell` at every column index. -/
lemma rowCells_spec {tps : List String} {w : Nat} {a : Activity} {si ei : Nat}
    (hs : pyIndex? a.start tps = some si) (he : pyIndex? a.stop tps = some ei) :
    rowCells tps w a =
      some ((List.range tps.length).map (barCell w si ei)) := by
  have hsl : si < tps.length := pyIndex?_lt_length hs
  have hel : ei < tps.length := pyIndex?_lt_length he
  unfold rowCells
  rw [hs, he]
  dsimp only
  congr 1
  have hlen1 : ((tps.map fun _ => blanks w).set si
      ("|" ++ dashes (w - 2) ++ if si = ei then "|" else "-")).length =
      tps.length := by
    rw [List.length_set, List.length_map]
  have hlen2 : ((List.range' (si + 1) (ei - (si + 1))).foldl
      (fun cs2 i => cs2.set i (dashes w))
      ((tps.map fun _ => blanks w).set si
        ("|" ++ dashes (w - 2) ++ if si = ei then "|" else "-"))).length =
      tps.length := by
    rw [foldl_set_length, hlen1]
  apply List.ext_getElem?
  intro j
  by_cases hj : j < tps.length
  · have hrhs : ((List.range tps.length).map (barCell w si ei))[j]? =
        some (barCell w si ei j) := by
      simp [List.getElem?_map, List.getElem?_range hj]
    rw [hrhs]
    have h0 : (tps.map fun _ => blanks w)[j]? = some (blanks w) := by
      simp [hj]
    have h1 : ((tps.map fun _ => blanks w).set si
        ("|" ++ dashes (w - 2) ++ if si = ei then "|" else "-"))[j]? =
        if j = si then
          some ("|" ++ dashes (w - 2) ++ if si = ei then "|" else "-")
        else some (blanks w) := by
      by_cases hjs : j = si
      · rw [if_pos hjs, hjs]
        exact List.getElem?_set_eq_of_lt _ (by rw [List.length_map]; exact hsl)
      · rw [if_neg hjs, List.getElem?_set_ne (fun hc => hjs hc.symm), h0]
    have h2 : ((List.range' (si + 1) (ei - (si + 1))).foldl
        (fun cs2 i => cs2.set i (dashes w))
        ((tps.map fun _ => blanks w).set si
          ("|" ++ dashes (w - 2) ++ if si = ei then "|" else "-")))[j]? =
        if si + 1 ≤ j ∧ j < si + 1 + (ei - (si + 1)) then some (dashes w)
        else if j = si then
          some ("|" ++ dashes (w - 2) ++ if si = ei then "|" else "-")
        else some (blanks w) := by
      rw [foldl_set_getElem?]
      by_cases hc : si + 1 ≤ j ∧ j < si + 1 + (ei - (si + 1))
      · rw [if_pos ⟨hc.1, hc.2, by rw [hlen1]; exact hj⟩, if_pos hc]
      · rw [if_neg (fun hcon => hc ⟨hcon.1, hcon.2.1⟩), if_neg hc, h1]
    by_cases hei : si < ei
    · rw [if_pos hei]
      by_cases hje : j = ei
      · have hlt2 : ei < ((List.range' (si + 1) (ei - (si + 1))).foldl
            (fun cs2 i => cs2.set i (dashes w))
            ((tps.map fun _ => blanks w).set si
              ("|" ++ dashes (w - 2) ++ if si = ei then "|" else "-"))).length := by
          rw [hlen2]; exact hel
        rw [hje, List.getElem?_set_eq_of_lt _ hlt2]
        simp only [barCell]
        rw [if_neg (by omega), if_neg (by omega), if_pos ⟨trivial, hei⟩]
      · rw [List.getElem?_set_ne (fun hc => hje hc.symm), h2]
        simp only [barCell]
        split_ifs <;> first | rfl | (exfalso; omega)
    · rw [if_neg hei, h2]
      simp only [barCell]
      split_ifs <;> first | rfl | (exfalso; omega)
  · have hge : tps.length ≤ j := Nat.le_of_not_lt hj
    have hrlen : ((List.range tps.length).map (barCell w si ei)).length =
        tps.length := by
      rw [List.length_map, List.length_range]
    have h3 : ((List.range tps.length).map (barCell w si ei)).length ≤ j := by
      rw [hrlen]; exact hge
    rw [List.getElem?_eq_none h3]
    by_cases hei : si < ei
    · rw [if_pos hei]
      have h4 : (((List.range' (si + 1) (ei - (si + 1))).foldl
          (fun cs2 i => cs2.set i (dashes w))
          ((tps.map fun _ => blanks w).set si
            ("|" ++ dashes (w - 2) ++ if si = ei then "|" else "-"))).set ei
          (dashes (w - 2) ++ "|")).length ≤ j := by
        rw [List.length_set, hlen2]; exact hge
      rw [List.getElem?_eq_none h4]
    · rw [if_neg hei]
      have h4 : ((List.range' (si + 1) (ei - (si + 1))).foldl
          (fun cs2 i => cs2.set i (dashes w))
          ((tps.map fun _ => blanks w).set si
            ("|" ++ dashes (w - 2) ++ if si = ei then "|" else "-"))).length ≤ j := by
        rw [hlen2]; exact hge
      rw [List.getElem?_eq_none h4]

lemma rowCells_getElem_eq {tps : List String} {w si ei : Nat} {j : Nat}
    (hj : j < tps.length) :
    ((List.range tps.length).map (barCell w si ei))[j]? =
      some (barCell w si ei j) := by
  simp [List.getElem?_map, List.getElem?_range hj]

/-- Claim C1: for an activity whose start and end labels sit at positions
`si ≤ ei` of the time-point list, the rendered row's cell at `si` is
`"|" + "-"*(w-2) + "|"` when `si = ei` and `"|" + "-"*(w-2) + "-"`
otherwise; every cell strictly between `si` and `ei` is `"-"*w`; when
`ei > si` the cell at `ei` is `"-"*(w-2) + "|"`; every cell outside
`[si, ei]` is `w` blanks; and the row string is the name field followed by
each cell preceded by a single space (`w = time_col_width`). -/
theorem c1_bar_drawing (tps : List String) (a : Activity) (acw si ei : Nat)
    (hs : pyIndex? a.start tps = some si) (he : pyIndex? a.stop tps = some ei)
    (hle : si ≤ ei) :
    ∃ cells, rowCells tps (time_col_width tps) a = some cells ∧
      cells[si]? = some ("|" ++ dashes (time_col_width tps - 2) ++
        (if si = ei then "|" else "-")) ∧
      (∀ i, si < i → i < ei → cells[i]? = some (dashes (time_col_width tps))) ∧
      (si < ei → cells[ei]? = some (dashes (time_col_width tps - 2) ++ "|")) ∧
      (∀ i, i < tps.length → (i < si ∨ ei < i) →
        cells[i]? = some (blanks (time_col_width tps))) ∧
      rowLine acw (time_col_width tps) tps a =
        some ("  " ++ pyLjust a.name acw ++ "  " ++
          strConcat (cells.map (fun c => " " ++ c)) ++ "\n") := by
  have hsl : si < tps.length := pyIndex?_lt_length hs
  have hel : ei < tps.length := pyIndex?_lt_length he
  refine ⟨(List.range tps.length).map (barCell (time_col_width tps) si ei),
    rowCells_spec hs he, ?_, ?_, ?_, ?_, ?_⟩
  · rw [rowCells_getElem_eq hsl]
    simp [barCell]
  · intro i h1 h2
    rw [rowCells_getElem_eq (Nat.lt_trans h2 hel)]
    simp only [barCell]
    rw [if_neg (by omega), if_pos ⟨h1, h2⟩]
  · intro hlt
    rw [rowCells_getElem_eq hel]
    simp only [barCell]
    rw [if_neg (by omega), if_neg (by omega), if_pos ⟨by trivial, hlt⟩]
  · intro i hi hout
    rw [rowCells_getElem_eq hi]
    simp only [barCell]
    rw [if_neg (by omega), if_neg (by omega), if_neg (by omega)]
  · unfold rowLine
    rw [rowCells_spec hs he, Option.map_some']
    rw [foldl_append_strConcat (fun c => " " ++ c)]

/-- Witness for C1 at a concrete input. -/
theorem c1_bar_drawing_witness :
    ∃ cells, rowCells ["09:00", "09:15", "10:00"]
        (time_col_width ["09:00", "09:15", "10:00"])
        ⟨"09:00", "10:00", "X"⟩ = some cells ∧
      cells[0]? = some ("|" ++ dashes (time_col_width ["09:00", "09:15", "10:00"] - 2) ++
        (if 0 = 2 then "|" else "-")) ∧
      (∀ i, 0 < i → i < 2 →
        cells[i]? = some (dashes (time_col_width ["09:00", "09:15", "10:00"]))) ∧
      (0 < 2 → cells[2]? =
        some (dashes (time_col_width ["09:00", "09:15", "10:00"] - 2) ++ "|")) ∧
      (∀ i, i < (["09:00", "09:15", "10:00"] : List String).length →
        (i < 0 ∨ 2 < i) →
        cells[i]? = some (blanks (time_col_width ["09:00", "09:15", "10:00"]))) ∧
      rowLine 8 (time_col_width ["09:00", "09:15", "10:00"])
        ["09:00", "09:15", "10:00"] ⟨"09:00", "10:00", "X"⟩ =
        some ("  " ++ pyLjust "X" 8 ++ "  " ++
          strConcat (cells.map (fun c => " " ++ c)) ++ "\n") :=
  c1_bar_drawing ["09:00", "09:15", "10:00"] ⟨"09:00", "10:00", "X"⟩ 8 0 2
    (by decide) (by decide) (by decide)

/-- Claim C10: for an activity whose end label sorts strictly before its
start label (`ei < si`), the renderer still emits a row without error; the
bar is only the start cell `"|" + "-"*(w-2) + "-"` at column `si`, every
other cell is blank, and no closing `|` is drawn. -/
theorem c10_reversed_bar (tps : List String) (a : Activity) (acw si ei : Nat)
    (hs : pyIndex? a.start tps = some si) (he : pyIndex? a.stop tps = some ei)
    (hlt : ei < si) :
    ∃ cells, rowCells tps (time_col_width tps) a = some cells ∧
      cells[si]? = some ("|" ++ dashes (time_col_width tps - 2) ++ "-") ∧
      (∀ i, i < tps.length → i ≠ si →
        cells[i]? = some (blanks (time_col_width tps))) ∧
      rowLine acw (time_col_width tps) tps a =
        some ("  " ++ pyLjust a.name acw ++ "  " ++
          strConcat (cells.map (fun c => " " ++ c)) ++ "\n") := by
  have hsl : si < tps.length := pyIndex?_lt_length hs
  refine ⟨(List.range tps.length).map (barCell (time_col_width tps) si ei),
    rowCells_spec hs he, ?_, ?_, ?_⟩
  · rw [rowCells_getElem_eq hsl]
    simp only [barCell]
    rw [if_pos (by trivial), if_neg (by omega)]
  · intro i hi hne
    rw [rowCells_getElem_eq hi]
    simp only [barCell]
    rw [if_neg hne, if_neg (by omega), if_neg (by omega)]
  · unfold rowLine
    rw [rowCells_spec hs he, Option.map_some']
    rw [foldl_append_strConcat (fun c => " " ++ c)]

/-- Witness for C10 at a concrete input. -/
theorem c10_reversed_bar_witness :
    ∃ cells, rowCells ["09:00", "09:15"] (time_col_width ["09:00", "09:15"])
        ⟨"09:15", "09:00", "Y"⟩ = some cells ∧
      cells[1]? = some ("|" ++ dashes (time_col_width ["09:00", "09:15"] - 2) ++ "-") ∧
      (∀ i, i < (["09:00", "09:15"] : List String).length → i ≠ 1 →
        cells[i]? = some (blanks (time_col_width ["09:00", "09:15"]))) ∧
      rowLine 8 (time_col_width ["09:00", "09:15"]) ["09:00", "09:15"]
        ⟨"09:15", "09:00", "Y"⟩ =
        some ("  " ++ pyLjust "Y" 8 ++ "  " ++
          strConcat (cells.map (fun c => " " ++ c)) ++ "\n") :=
  c10_reversed_bar ["09:00", "09:15"] ⟨"09:15", "09:00", "Y"⟩ 8 1 0
    (by decide) (by decide) (by decide)

/-- Claim C2: an activity whose start or end label is absent from the
time-point list produces no row at all — silently, without an error — and
the table is exactly the header block plus the rows of the matching
activities, in their given order. -/
theorem c2_unmatched_activity_omitted (acts : List Activity)
    (tps : List String) (a : Activity) (ha : a ∈ acts)
    (hu : pyIndex? a.start tps = none ∨ pyIndex? a.stop tps = none)
    (hne : tps ≠ []) :
    rowLine (activity_col_width acts) (time_col_width tps) tps a = none ∧
    build_ascii_table acts tps = Except.ok
      (sepLine (activity_col_width acts) (time_col_width tps) tps ++
       headerLine (activity_col_width acts) (time_col_width tps) tps ++
       sepLine (activity_col_width acts) (time_col_width tps) tps ++
       strConcat (acts.filterMap
         (rowLine (activity_col_width acts) (time_col_width tps) tps)) ++
       sepLine (activity_col_width acts) (time_col_width tps) tps) := by
  constructor
  · have hrc : rowCells tps (time_col_width tps) a = none := by
      unfold rowCells
      rcases hu with h | h
      · rw [h]
      · rw [h]
        cases pyIndex? a.start tps <;> rfl
    simp [rowLine, hrc]
  · exact build_ascii_table_eq acts tps hne

/-- Witness for C2 at a concrete input. -/
theorem c2_unmatched_activity_omitted_witness :
    rowLine (activity_col_width [⟨"08:00", "09:15", "A"⟩])
      (time_col_width ["09:00", "09:15"]) ["09:00", "09:15"]
      ⟨"08:00", "09:15", "A"⟩ = none ∧
    build_ascii_table [⟨"08:00", "09:15", "A"⟩] ["09:00", "09:15"] =
      Except.ok
        (sepLine (activity_col_width [⟨"08:00", "09:15", "A"⟩])
          (time_col_width ["09:00", "09:15"]) ["09:00", "09:15"] ++
         headerLine (activity_col_width [⟨"08:00", "09:15", "A"⟩])
          (time_col_width ["09:00", "09:15"]) ["09:00", "09:15"] ++
         sepLine (activity_col_width [⟨"08:00", "09:15", "A"⟩])
          (time_col_width ["09:00", "09:15"]) ["09:00", "09:15"] ++
         strConcat ([⟨"08:00", "09:15", "A"⟩].filterMap
           (rowLine (activity_col_width [⟨"08:00", "09:15", "A"⟩])
             (time_col_width ["09:00", "09:15"]) ["09:00", "09:15"])) ++
         sepLine (activity_col_width [⟨"08:00", "09:15", "A"⟩])
          (time_col_width ["09:00", "09:15"]) ["09:00", "09:15"]) :=
  c2_unmatched_activity_omitted [⟨"08:00", "09:15", "A"⟩] ["09:00", "09:15"]
    ⟨"08:00", "09:15", "A"⟩ (by decide) (Or.inl (by decide)) (by decide)

/-- Claim C6: `render` with an empty time-point sequence signals an
explicit error (Python's `max` raises `ValueError`) instead of returning a
table string; with a non-empty sequence it always returns a table
string. -/
theorem c6_empty_axis_error (activities : List Activity)
    (time_points : List String) :
    (time_points = [] →
      build_ascii_table activities time_points =
        Except.error "ValueError: max() arg is an empty sequence") ∧
    (time_points ≠ [] →
      ∃ s, build_ascii_table activities time_points = Except.ok s) :=
  ⟨fun h => by rw [h]; rfl,
   fun h => ⟨_, build_ascii_table_eq activities time_points h⟩⟩

/-- Witness for C6 at concrete inputs. -/
theorem c6_empty_axis_error_witness :
    build_ascii_table [] ([] : List String) =
      Except.error "ValueError: max() arg is an empty sequence" ∧
    ∃ s, build_ascii_table [] ["09:00"] = Except.ok s :=
  ⟨(c6_empty_axis_error [] []).1 rfl,
   (c6_empty_axis_error [] ["09:00"]).2 (by decide)⟩

/-! Shapes of the separator and header lines, and bounds for the column
widths. -/

lemma sepLine_eq (acw w : Nat) (tps : List String) :
    sepLine acw w tps =
      (" " ++ dashes (acw + 2) ++ " " ++
        strConcat (tps.map (fun _ => " " ++ dashes w))) ++ "\n" := by
  unfold sepLine
  rw [foldl_append_strConcat (fun _ => " " ++ dashes w)]

lemma headerLine_eq (acw w : Nat) (tps : List String) :
    headerLine acw w tps =
      ("  " ++ pyCenter "activity" acw ++ "  " ++
        strConcat (tps.map (fun tp => " " ++ pyCenter tp w))) ++ "\n" := by
  unfold headerLine
  rw [foldl_append_strConcat (fun tp => " " ++ pyCenter tp w)]

lemma le_foldl_max_init : ∀ (xs : List Nat) (x : Nat), x ≤ xs.foldl max x := by
  intro xs
  induction xs with
  | nil => intro x; exact Nat.le_refl x
  | cons y ys ih =>
    intro x
    exact Nat.le_trans (Nat.le_max_left x y) (ih (max x y))

lemma le_foldl_max_of_mem :
    ∀ (xs : List Nat) (x y : Nat), y ∈ x :: xs → y ≤ xs.foldl max x := by
  intro xs
  induction xs with
  | nil =>
    intro x y h
    rw [List.mem_singleton] at h
    subst h
    exact Nat.le_refl y
  | cons z zs ih =>
    intro x y h
    simp only [List.foldl_cons]
    rcases List.mem_cons.mp h with h1 | h2
    · subst h1
      exact Nat.le_trans (Nat.le_max_left y z) (le_foldl_max_init zs _)
    · rcases List.mem_cons.mp h2 with h3 | h4
      · subst h3
        exact Nat.le_trans (Nat.le_max_right x y) (le_foldl_max_init zs _)
      · exact ih (max x z) y (List.mem_cons_of_mem _ h4)

lemma foldl_max_mem_cons :
    ∀ (xs : List Nat) (x : Nat), xs.foldl max x ∈ x :: xs := by
  intro xs
  induction xs with
  | nil => intro x; exact List.mem_singleton.mpr rfl
  | cons y ys ih =>
    intro x
    simp only [List.foldl_cons]
    rcases List.mem_cons.mp (ih (max x y)) with h | h
    · rcases max_choice x y with h2 | h2
      · rw [h, h2]
        exact List.mem_cons_self _ _
      · rw [h, h2]
        exact List.mem_cons_of_mem _ (List.mem_cons_self _ _)
    · exact List.mem_cons_of_mem _ (List.mem_cons_of_mem _ h)

lemma pyMaxD_spec (l : List Nat) (d : Nat) :
    (∀ y ∈ l, y ≤ pyMaxD l d) ∧ (pyMaxD l d = d ∨ pyMaxD l d ∈ l) := by
  cases l with
  | nil => exact ⟨fun y h => absurd h (List.not_mem_nil y), Or.inl rfl⟩
  | cons x xs =>
    refine ⟨fun y h => ?_, Or.inr ?_⟩
    · exact le_foldl_max_of_mem xs x y h
    · exact foldl_max_mem_cons xs x

lemma activity_col_width_spec (acts : List Activity) :
    8 ≤ activity_col_width acts ∧
    (∀ a ∈ acts, a.name.length ≤ activity_col_width acts) ∧
    (activity_col_width acts = 8 ∨
      ∃ a ∈ acts, a.name.length = activity_col_width acts) := by
  obtain ⟨hub, hmem⟩ := pyMaxD_spec (acts.map (fun a => a.name.length)) 8
  refine ⟨Nat.le_max_left _ _, ?_, ?_⟩
  · intro a ha
    exact Nat.le_trans (hub _ (List.mem_map_of_mem _ ha)) (Nat.le_max_right _ _)
  · rcases max_choice 8 (pyMaxD (acts.map (fun a => a.name.length)) 8) with h | h
    · exact Or.inl h
    · rcases hmem with h2 | h2
      · exact Or.inl (by rw [activity_col_width, h, h2])
      · obtain ⟨a, ha, hlen⟩ := List.mem_map.mp h2
        exact Or.inr ⟨a, ha, by rw [activity_col_width, h, hlen]⟩

lemma time_col_width_spec (tps : List String) :
    7 ≤ time_col_width tps ∧
    (∀ tp ∈ tps, tp.length ≤ time_col_width tps) ∧
    (time_col_width tps = 7 ∨ ∃ tp ∈ tps, tp.length = time_col_width tps) := by
  obtain ⟨hub, hmem⟩ := pyMaxD_spec (tps.map String.length) 0
  refine ⟨Nat.le_max_left _ _, ?_, ?_⟩
  · intro tp htp
    exact Nat.le_trans (hub _ (List.mem_map_of_mem _ htp)) (Nat.le_max_right _ _)
  · rcases max_choice 7 (pyMaxD (tps.map String.length) 0) with h | h
    · exact Or.inl h
    · rcases hmem with h2 | h2
      · -- the maximum equals the default 0; then the width is 7
        exact Or.inl (by
          rw [time_col_width, h, h2]
          rw [h2] at h
          omega)
      · obtain ⟨tp, htp, hlen⟩ := List.mem_map.mp h2
        exact Or.inr ⟨tp, htp, by rw [time_col_width, h, hlen]⟩

/-- Counterexample for C8: the claim puts two spaces on each side of the
name-column dashes of a separator line, but the source writes
`f" {'-' * (activity_col_width + 2)} "` — one space on each side.  At the
concrete input below, the first output line is the actual separator and
differs from the claim's separator. -/
theorem c8_counterexample :
    (build_ascii_table [] ["09:00"]).toOption = some
      (" ----------  -------\n" ++ "  activity    09:00 \n" ++
       " ----------  -------\n" ++ " ----------  -------\n") ∧
    (splitlines
      (" ----------  -------\n" ++ "  activity    09:00 \n" ++
       " ----------  -------\n" ++ " ----------  -------\n")).head? =
      some " ----------  -------" ∧
    (" ----------  -------" : String) ≠
      "  " ++ dashes (activity_col_width [] + 2) ++ "  " ++
        strConcat (["09:00"].map
          (fun _ => " " ++ dashes (time_col_width ["09:00"]))) :=
  ⟨by decide, by decide, by decide⟩

/-- Claim C8 as amended: each separator line consists of one space, then
`activity_col_width + 2` dashes, then one space, followed for each time
point by one space and `time_col_width` dashes; the widths are
`max(8, longest name, default 8)` and `max(7, longest label)`. -/
theorem c8_amended_separator (acts : List Activity) (tps : List String)
    (hne : tps ≠ []) :
    build_ascii_table acts tps = Except.ok
      (sepLine (activity_col_width acts) (time_col_width tps) tps ++
       headerLine (activity_col_width acts) (time_col_width tps) tps ++
       sepLine (activity_col_width acts) (time_col_width tps) tps ++
       strConcat (acts.filterMap
         (rowLine (activity_col_width acts) (time_col_width tps) tps)) ++
       sepLine (activity_col_width acts) (time_col_width tps) tps) ∧
    sepLine (activity_col_width acts) (time_col_width tps) tps =
      (" " ++ dashes (activity_col_width acts + 2) ++ " " ++
        strConcat (tps.map
          (fun _ => " " ++ dashes (time_col_width tps)))) ++ "\n" ∧
    8 ≤ activity_col_width acts ∧
    (∀ a ∈ acts, a.name.length ≤ activity_col_width acts) ∧
    (activity_col_width acts = 8 ∨
      ∃ a ∈ acts, a.name.length = activity_col_width acts) ∧
    7 ≤ time_col_width tps ∧
    (∀ tp ∈ tps, tp.length ≤ time_col_width tps) ∧
    (time_col_width tps = 7 ∨ ∃ tp ∈ tps, tp.length = time_col_width tps) := by
  obtain ⟨ha1, ha2, ha3⟩ := activity_col_width_spec acts
  obtain ⟨ht1, ht2, ht3⟩ := time_col_width_spec tps
  exact ⟨build_ascii_table_eq acts tps hne, sepLine_eq _ _ tps,
    ha1, ha2, ha3, ht1, ht2, ht3⟩

/-- Witness for the amended C8 at a concrete input. -/
theorem c8_amended_separator_witness :
    build_ascii_table [] ["09:00"] = Except.ok
      (sepLine (activity_col_width []) (time_col_width ["09:00"]) ["09:00"] ++
       headerLine (activity_col_width []) (time_col_width ["09:00"]) ["09:00"] ++
       sepLine (activity_col_width []) (time_col_width ["09:00"]) ["09:00"] ++
       strConcat (List.filterMap
         (rowLine (activity_col_width []) (time_col_width ["09:00"]) ["09:00"]) []) ++
       sepLine (activity_col_width []) (time_col_width ["09:00"]) ["09:00"]) ∧
    sepLine (activity_col_width []) (time_col_width ["09:00"]) ["09:00"] =
      (" " ++ dashes (activity_col_width [] + 2) ++ " " ++
        strConcat (["09:00"].map
          (fun _ => " " ++ dashes (time_col_width ["09:00"])))) ++ "\n" ∧
    8 ≤ activity_col_width [] ∧
    (∀ a ∈ ([] : List Activity), a.name.length ≤ activity_col_width []) ∧
    (activity_col_width [] = 8 ∨
      ∃ a ∈ ([] : List Activity), a.name.length = activity_col_width []) ∧
    7 ≤ time_col_width ["09:00"] ∧
    (∀ tp ∈ ["09:00"], tp.length ≤ time_col_width ["09:00"]) ∧
    (time_col_width ["09:00"] = 7 ∨
      ∃ tp ∈ ["09:00"], tp.length = time_col_width ["09:00"]) :=
  c8_amended_separator [] ["09:00"] (by decide)

/-- Counterexample for C3: the claim counts lines for every activities
list, but an activity name containing a line break adds lines: with one
matched activity whose name is `"a\nb"`, the output has 6 lines, not
`N + 4 = 5`. -/
theorem c3_counterexample :
    ((build_ascii_table [⟨"09:00", "09:15", "a\nb"⟩]
        ["09:00", "09:15"]).toOption.map
      (fun s => (splitlines s).length)) = some 6 ∧
    ([(⟨"09:00", "09:15", "a\nb"⟩ : Activity)].filter (fun a =>
        (["09:00", "09:15"] : List String).contains a.start &&
        (["09:00", "09:15"] : List String).contains a.stop)).length + 4 = 5 :=
  ⟨by decide, by decide⟩

/-! Line-break-freeness lemmas and the segment structure of the output,
used to count the output's lines. -/

lemma breakFree_chars {s : String} (h : breakFree s = true) :
    ∀ c ∈ s.data, isLineBreak c = false := by
  intro c hc
  simp only [breakFree, List.all_eq_true] at h
  simpa using h c hc

lemma breakFree_append (s t : String) :
    breakFree (s ++ t) = (breakFree s && breakFree t) := by
  simp [breakFree, String.data_append, List.all_append]

lemma breakFree_dashes (n : Nat) : breakFree (dashes n) = true := by
  simp only [breakFree, dashes, data_mk, List.all_eq_true]
  intro c hc
  rw [List.eq_of_mem_replicate hc]
  decide

lemma breakFree_blanks (n : Nat) : breakFree (blanks n) = true := by
  simp only [breakFree, blanks, data_mk, List.all_eq_true]
  intro c hc
  rw [List.eq_of_mem_replicate hc]
  decide

lemma breakFree_pyLjust {s : String} (width : Nat) (h : breakFree s = true) :
    breakFree (pyLjust s width) = true := by
  unfold pyLjust
  split_ifs
  · exact h
  · rw [breakFree_append, h, breakFree_blanks]
    rfl

lemma breakFree_pyCenter {s : String} (width : Nat) (h : breakFree s = true) :
    breakFree (pyCenter s width) = true := by
  unfold pyCenter
  split_ifs
  · exact h
  · rw [breakFree_append, breakFree_append, breakFree_blanks, breakFree_blanks, h]
    rfl

lemma breakFree_strConcat {l : List String}
    (h : ∀ s ∈ l, breakFree s = true) : breakFree (strConcat l) = true := by
  induction l with
  | nil => rfl
  | cons s rest ih =>
    simp only [strConcat]
    rw [breakFree_append, h s (by simp), ih (fun t ht => h t (by simp [ht]))]
    rfl

lemma breakFree_barCell (w si ei j : Nat) :
    breakFree (barCell w si ei j) = true := by
  unfold barCell
  split_ifs <;>
    simp only [breakFree_append, breakFree_dashes, breakFree_blanks] <;> decide

lemma strConcat_data :
    ∀ l : List String, (strConcat l).data = (l.map String.data).flatten := by
  intro l
  induction l with
  | nil => rfl
  | cons s rest ih =>
    simp only [strConcat, List.map_cons, List.flatten_cons, String.data_append, ih]

lemma splitlinesGo_breakfree_seg :
    ∀ (seg rest acc : List Char),
      (∀ c ∈ seg, isLineBreak c = false) →
      splitlinesGo false (seg ++ rest) acc =
        splitlinesGo false rest (seg.reverse ++ acc) := by
  intro seg
  induction seg with
  | nil => intro rest acc _; simp
  | cons x xs ih =>
    intro rest acc h
    have hx : isLineBreak x = false := h x (by simp)
    simp only [List.cons_append, splitlinesGo, Bool.false_and, Bool.false_eq_true,
      if_false, hx]
    rw [show ((x :: xs).reverse ++ acc) = xs.reverse ++ (x :: acc) from by simp]
    exact ih rest (x :: acc) (fun c hc => h c (by simp [hc]))

lemma splitlinesGo_newline (rest acc : List Char) :
    splitlinesGo false ('\n' :: rest) acc =
      String.mk acc.reverse :: splitlinesGo false rest [] := rfl

lemma splitlines_of_segs :
    ∀ segs : List String, (∀ seg ∈ segs, breakFree seg = true) →
      splitlinesGo false ((segs.map (fun seg => seg.data ++ ['\n'])).flatten) []
        = segs := by
  intro segs
  induction segs with
  | nil => intro _; rfl
  | cons seg rest ih =>
    intro h
    simp only [List.map_cons, List.flatten_cons, List.append_assoc]
    rw [splitlinesGo_breakfree_seg seg.data _ []
      (breakFree_chars (h seg (by simp)))]
    rw [show (['\n'] ++ (rest.map (fun seg => seg.data ++ ['\n'])).flatten) =
      '\n' :: (rest.map (fun seg => seg.data ++ ['\n'])).flatten from rfl]
    rw [splitlinesGo_newline, List.append_nil, List.reverse_reverse]
    rw [ih (fun t ht => h t (by simp [ht]))]

lemma splitlines_segs {segs : List String}
    (h : ∀ seg ∈ segs, breakFree seg = true) :
    splitlines (strConcat (segs.map (fun seg => seg ++ "\n"))) = segs := by
  unfold splitlines
  have hdata : (strConcat (segs.map (fun seg => seg ++ "\n"))).data =
      (segs.map (fun seg => seg.data ++ ['\n'])).flatten := by
    rw [strConcat_data, List.map_map]
    congr 1
  rw [hdata]
  exact splitlines_of_segs segs h

lemma strConcat_append :
    ∀ l1 l2 : List String, strConcat (l1 ++ l2) = strConcat l1 ++ strConcat l2 := by
  intro l1 l2
  induction l1 with
  | nil => simp [strConcat]
  | cons s rest ih =>
    simp only [List.cons_append, strConcat]
    show s ++ strConcat (rest ++ l2) = s ++ strConcat rest ++ strConcat l2
    rw [ih]
    exact (String.append_assoc _ _ _).symm

lemma length_filterMap_eq {α β : Type} (f : α → Option β) :
    ∀ l : List α, (l.filterMap f).length =
      (l.filter (fun a => (f a).isSome)).length := by
  intro l
  induction l with
  | nil => rfl
  | cons a rest ih =>
    cases hfa : f a with
    | none =>
      rw [List.filterMap_cons_none hfa]
      have : ((f a).isSome = false) := by rw [hfa]; rfl
      simp [List.filter_cons, this, ih]
    | some b =>
      rw [List.filterMap_cons_some hfa]
      have : ((f a).isSome = true) := by rw [hfa]; rfl
      simp [List.filter_cons, this, ih]

lemma rowCells_isSome_eq {tps : List String} {w : Nat} {a : Activity} :
    (rowCells tps w a).isSome =
      ((pyIndex? a.start tps).isSome && (pyIndex? a.stop tps).isSome) := by
  unfold rowCells
  cases h1 : pyIndex? a.start tps <;> cases h2 : pyIndex? a.stop tps <;> rfl

lemma pyIndex?_isSome_eq_contains {x : String} {l : List String} :
    (pyIndex? x l).isSome = l.contains x := by
  by_cases h : x ∈ l
  · rw [pyIndex?_isSome_iff.mpr h]
    have h2 : l.contains x = true := by simpa [List.elem_iff] using h
    rw [h2]
  · have h1 : (pyIndex? x l).isSome = false := by
      rw [Bool.eq_false_iff]
      intro hc
      exact h (pyIndex?_isSome_iff.mp hc)
    have h2 : l.contains x = false := by
      rw [Bool.eq_false_iff]
      intro hc
      exact h (by simpa [List.elem_iff] using hc)
    rw [h1, h2]

lemma rowCells_some_idx {tps : List String} {w : Nat} {a : Activity}
    {cells : List String} (h : rowCells tps w a = some cells) :
    ∃ si ei, pyIndex? a.start tps = some si ∧ pyIndex? a.stop tps = some ei := by
  unfold rowCells at h
  cases h1 : pyIndex? a.start tps with
  | none =>
    rw [h1] at h
    cases h2 : pyIndex? a.stop tps <;> rw [h2] at h <;> cases h
  | some si =>
    cases h2 : pyIndex? a.stop tps with
    | none => rw [h1, h2] at h; cases h
    | some ei => exact ⟨si, ei, rfl, rfl⟩

/-- Claim C3 as amended: provided no activity name and no time-point label
contains a line-break character, the output of `render` on a non-empty
time axis has exactly `N + 4` lines, where `N` counts the activities whose
start and end labels both occur in the time points: separator, header,
separator, the `N` data rows in input order, separator. -/
theorem c3_amended_line_count (acts : List Activity) (tps : List String)
    (hne : tps ≠ []) (hnames : ∀ a ∈ acts, breakFree a.name = true)
    (htps : ∀ tp ∈ tps, breakFree tp = true) :
    ∃ s, build_ascii_table acts tps = Except.ok s ∧
      (splitlines s).length =
        (acts.filter (fun a =>
          tps.contains a.start && tps.contains a.stop)).length + 4 := by
  refine ⟨_, build_ascii_table_eq acts tps hne, ?_⟩
  set acw := activity_col_width acts with hacw
  set w := time_col_width tps with hw
  set sepC := " " ++ dashes (acw + 2) ++ " " ++
    strConcat (tps.map (fun _ => " " ++ dashes w)) with hsepC
  set headC := "  " ++ pyCenter "activity" acw ++ "  " ++
    strConcat (tps.map (fun tp => " " ++ pyCenter tp w)) with hheadC
  set rowCs := acts.filterMap (fun a => (rowCells tps w a).map (fun cells =>
    "  " ++ pyLjust a.name acw ++ "  " ++
      strConcat (cells.map (fun c => " " ++ c)))) with hrowCs
  have hrowline : acts.filterMap (rowLine acw w tps) =
      rowCs.map (fun c => c ++ "\n") := by
    rw [hrowCs, List.map_filterMap]
    apply congrArg (fun f => acts.filterMap f)
    funext a
    rw [Option.map_map]
    unfold rowLine
    cases hc : rowCells tps w a with
    | none => rfl
    | some cells =>
      simp only [Option.map_some', Function.comp]
      rw [foldl_append_strConcat (fun c => " " ++ c)]
  have htable : sepLine acw w tps ++ headerLine acw w tps ++ sepLine acw w tps ++
      strConcat (acts.filterMap (rowLine acw w tps)) ++ sepLine acw w tps =
      strConcat ((([sepC, headC, sepC] ++ rowCs ++ [sepC]).map
        (fun c => c ++ "\n"))) := by
    rw [sepLine_eq, headerLine_eq, hrowline, hsepC, hheadC]
    simp [List.map_append, strConcat_append, strConcat, String.append_assoc]
  have hsepbf : breakFree sepC = true := by
    have hsc : breakFree (strConcat (tps.map (fun _ => " " ++ dashes w))) = true := by
      apply breakFree_strConcat
      intro s hs
      obtain ⟨tp, _, rfl⟩ := List.mem_map.mp hs
      rw [breakFree_append, breakFree_dashes]
      decide
    rw [hsepC, breakFree_append, breakFree_append, breakFree_append,
      breakFree_dashes, hsc]
    decide
  have hheadbf : breakFree headC = true := by
    have hsc : breakFree (strConcat (tps.map (fun tp => " " ++ pyCenter tp w))) =
        true := by
      apply breakFree_strConcat
      intro s hs
      obtain ⟨tp, htp, rfl⟩ := List.mem_map.mp hs
      rw [breakFree_append, breakFree_pyCenter _ (htps tp htp)]
      decide
    rw [hheadC, breakFree_append, breakFree_append, breakFree_append,
      breakFree_pyCenter _ (by decide), hsc]
    decide
  have hrowbf : ∀ rc ∈ rowCs, breakFree rc = true := by
    intro rc hrc
    rw [hrowCs] at hrc
    obtain ⟨a, ha, hsome⟩ := List.mem_filterMap.mp hrc
    obtain ⟨cells, hcells, hmap⟩ := Option.map_eq_some'.mp hsome
    obtain ⟨si, ei, h1, h2⟩ := rowCells_some_idx hcells
    have hcells2 := @rowCells_spec tps w a si ei h1 h2
    rw [hcells] at hcells2
    have hce : cells = (List.range tps.length).map (barCell w si ei) :=
      Option.some.inj hcells2
    rw [← hmap, hce]
    have hsc : breakFree (strConcat
        (((List.range tps.length).map (barCell w si ei)).map
          (fun c => " " ++ c))) = true := by
      apply breakFree_strConcat
      intro s hs
      obtain ⟨c, hc, rfl⟩ := List.mem_map.mp hs
      obtain ⟨j, _, rfl⟩ := List.mem_map.mp hc
      rw [breakFree_append, breakFree_barCell]
      decide
    rw [breakFree_append, breakFree_append, breakFree_append,
      breakFree_pyLjust _ (hnames a ha), hsc]
    decide
  have hlines : splitlines
      (sepLine acw w tps ++ headerLine acw w tps ++ sepLine acw w tps ++
        strConcat (acts.filterMap (rowLine acw w tps)) ++ sepLine acw w tps) =
      [sepC, headC, sepC] ++ rowCs ++ [sepC] := by
    rw [htable]
    apply splitlines_segs
    intro seg hseg
    simp only [List.mem_append, List.mem_cons, List.mem_singleton,
      List.not_mem_nil, or_false] at hseg
    rcases hseg with ((h1 | h1 | h1) | h1) | h1 <;>
      first
        | (rw [h1]; exact hsepbf)
        | (rw [h1]; exact hheadbf)
        | exact hrowbf seg h1
  rw [hlines]
  have hcount : rowCs.length = (acts.filter (fun a =>
      tps.contains a.start && tps.contains a.stop)).length := by
    rw [hrowCs, length_filterMap_eq]
    congr 1
    apply List.filter_congr
    intro a _
    rw [Option.isSome_map', rowCells_isSome_eq,
      pyIndex?_isSome_eq_contains, pyIndex?_isSome_eq_contains]
  simp only [List.length_append, List.length_cons, List.length_nil,
    List.length_singleton]
  omega

/-- Witness for the amended C3 at a concrete input with one matched and
one unmatched activity. -/
theorem c3_amended_line_count_witness :
    ∃ s, build_ascii_table
        [⟨"09:00", "09:15", "A"⟩, ⟨"07:00", "09:15", "B"⟩]
        ["09:00", "09:15"] = Except.ok s ∧
      (splitlines s).length =
        ([(⟨"09:00", "09:15", "A"⟩ : Activity), ⟨"07:00", "09:15", "B"⟩].filter
          (fun a => (["09:00", "09:15"] : List String).contains a.start &&
            (["09:00", "09:15"] : List String).contains a.stop)).length + 4 :=
  c3_amended_line_count [⟨"09:00", "09:15", "A"⟩, ⟨"07:00", "09:15", "B"⟩]
    ["09:00", "09:15"] (by decide) (by decide) (by decide)

end Asciitl
